import Mathlib

/-!
Verification of the execution-memory subsystem of `browser-use-self`
(`memory/memory_manager.py`, `memory/rating_system.py`,
`memory/strategy_store.py`) against its natural-language specification.

The Python classes are shallowly embedded: SQLite tables become lists,
Python floats become `ℚ`, Python ints become `ℤ`, and the external
keyword extractor, the MD5-based id generator and the wall clock are
passed in as explicit function/value parameters.
-/

/-- `ExecutionRecord` from `memory_manager.py` (lines 11-23).
The extra field `weighted_score` models the attribute of the same name
that `find_similar_executions` dynamically attaches to returned records
(line 244); records that never went through the ranker carry `0` there,
matching the `hasattr(record, 'weighted_score') and record.weighted_score > 0`
guard in `strategy_store.py` line 42. -/
structure ExecutionRecord where
  id : String
  question : String
  execution_steps : List String
  result : String
  rating : Int
  timestamp : String
  task_type : String
  success : Bool
  execution_time : ℚ
  similarity_keywords : List String
  weighted_score : ℚ
deriving DecidableEq

/-- One row of the `similarity_index` table (`memory_manager.py` lines 67-74). -/
structure SimIndexEntry where
  keyword : String
  record_id : String
  weight : ℚ
deriving DecidableEq

/-- The SQLite database: the `execution_records` table and the
`similarity_index` table. -/
structure Store where
  execution_records : List ExecutionRecord
  similarity_index : List SimIndexEntry
deriving DecidableEq

/-- A freshly initialised database (`_init_database`). -/
def emptyStore : Store := ⟨[], []⟩

/-- `RatingSystem.should_store_execution` (`rating_system.py` lines 193-195):
`return rating >= 4`. -/
def should_store_execution (rating : Int) : Bool := decide (4 ≤ rating)

/-- `INSERT OR REPLACE` keyed on the `id` primary-key column
(`memory_manager.py` lines 160-169): if a row with the same id exists it
is replaced, otherwise the row is appended. -/
def upsertRecord (recs : List ExecutionRecord) (r : ExecutionRecord) :
    List ExecutionRecord :=
  if recs.any (fun x => x.id == r.id) then
    recs.map (fun x => if x.id = r.id then r else x)
  else
    recs ++ [r]

/-- The message returned by `store_execution` when `rating < 4`
(`memory_manager.py` line 129). -/
def notStoredMessage : String := "评分低于四星，不存储到记忆系统中"

/-- `MemoryManager.store_execution` (`memory_manager.py` lines 124-188).
`extract` stands for `self._extract_keywords`, `genId` for
`self._generate_record_id` (an MD5 digest prefix, deterministic in
`(question, timestamp)`), and `now` for `datetime.now().isoformat()`.
Returns the result message and the updated database. -/
def store_execution (extract : String → List String → List String)
    (genId : String → String → String) (now : String) (st : Store)
    (question : String) (execution_steps : List String) (result : String)
    (rating : Int) (task_type : String) (success : Bool)
    (execution_time : ℚ) : String × Store :=
  if rating < 4 then
    (notStoredMessage, st)
  else
    let timestamp := now
    let record_id := genId question timestamp
    let keywords := extract question execution_steps
    let record : ExecutionRecord :=
      { id := record_id, question := question,
        execution_steps := execution_steps, result := result,
        rating := rating, timestamp := timestamp, task_type := task_type,
        success := success, execution_time := execution_time,
        similarity_keywords := keywords, weighted_score := 0 }
    let recs := upsertRecord st.execution_records record
    let idx := st.similarity_index.filter
        (fun e => !(e.record_id == record_id)) ++
      keywords.map (fun kw => ⟨kw, record_id, 1.0⟩)
    ("执行记录已成功存储到记忆系统：" ++ record_id, ⟨recs, idx⟩)

/-- The per-record `match_count` of the ranking query
(`memory_manager.py` lines 208-209): the number of `similarity_index`
rows joined to the record whose keyword is among the query keywords
(`WHERE s.keyword IN (...) ... COUNT(s.keyword)`). -/
def matchCount (st : Store) (qkws : List String) (r : ExecutionRecord) : Nat :=
  (st.similarity_index.filter
    (fun e => e.record_id == r.id && qkws.contains e.keyword)).length

/-- The `weighted_score` expression of the ranking query
(`memory_manager.py` lines 211-216). -/
def weightedScore (st : Store) (qkws : List String) (r : ExecutionRecord) : ℚ :=
  (matchCount st qkws r : ℚ) * 1.0 + (r.rating : ℚ) * 2.0 +
    (if r.success then 1.0 else 0.0) +
    (if 5 ≤ r.rating then 3.0 else if 4 ≤ r.rating then 1.5 else 0.0)

/-- The grouped rows of the ranking query before `ORDER BY`: every record
joined to at least one matching index row, with the computed
`weighted_score` attached (`memory_manager.py` lines 217-220 and 244). -/
def scoredRecords (st : Store) (qkws : List String) : List ExecutionRecord :=
  (st.execution_records.filter (fun r => decide (0 < matchCount st qkws r))).map
    (fun r => { r with weighted_score := weightedScore st qkws r })

/-- `ORDER BY weighted_score DESC, r.rating DESC, r.timestamp DESC`
(`memory_manager.py` line 222), as a Boolean "comes no later than"
comparison between two already-scored rows. -/
def rankLE (a b : ExecutionRecord) : Bool :=
  decide (b.weighted_score < a.weighted_score ∨
    (a.weighted_score = b.weighted_score ∧
      (b.rating < a.rating ∨
        (a.rating = b.rating ∧ b.timestamp ≤ a.timestamp))))

/-- The SQL part of `MemoryManager.find_similar_executions`
(`memory_manager.py` lines 204-247): score, order, truncate to `LIMIT`. -/
def find_similar_core (st : Store) (qkws : List String) (limit : Nat) :
    List ExecutionRecord :=
  ((scoredRecords st qkws).mergeSort rankLE).take limit

/-- `MemoryManager.find_similar_executions` (`memory_manager.py`
lines 190-253): extract the query keywords (with `steps = []`), return
`[]` when none were extracted, otherwise run the ranking query. -/
def find_similar_executions (extract : String → List String → List String)
    (st : Store) (question : String) (limit : Nat) : List ExecutionRecord :=
  let current_keywords := extract question []
  if current_keywords.isEmpty then [] else find_similar_core st current_keywords limit

/-- One entry of `weighted_steps` in
`StrategyStore.get_strategy_suggestions` (`strategy_store.py` lines 47-52). -/
structure WeightedStep where
  step : String
  weight : ℚ
  rating : Int
  record_id : String
deriving DecidableEq

/-- The record filter of the synthesizer loop
(`strategy_store.py` line 31): `record.rating >= 4 and record.success`. -/
def highQuality (records : List ExecutionRecord) : List ExecutionRecord :=
  records.filter (fun r => decide (4 ≤ r.rating) && r.success)

/-- The `record_weight` computation (`strategy_store.py` lines 35-43):
3.0 for rating 5, 1.5 for rating 4, otherwise 1.0; multiplied by
`1 + weighted_score / 10` when a positive ranker score is attached. -/
def recordWeight (r : ExecutionRecord) : ℚ :=
  let base : ℚ := if r.rating = 5 then 3.0 else if r.rating = 4 then 1.5 else 1.0
  if 0 < r.weighted_score then base * (1 + r.weighted_score / 10.0) else base

/-- The flattened `weighted_steps` list (`strategy_store.py` lines 46-52):
one entry per step of each high-quality record. -/
def weightedSteps (records : List ExecutionRecord) : List WeightedStep :=
  (highQuality records).flatMap (fun r =>
    r.execution_steps.map (fun s => ⟨s, recordWeight r, r.rating, r.id⟩))

/-- The `confidence_scores` list (`strategy_store.py` lines 54-57):
`((rating / 5.0) * 0.8 + 0.2) * record_weight`, one entry per
high-quality record. -/
def confidenceScores (records : List ExecutionRecord) : List ℚ :=
  (highQuality records).map
    (fun r => ((r.rating : ℚ) / 5.0 * 0.8 + 0.2) * recordWeight r)

/-- `weighted_steps.sort(key=lambda x: x['weight'], reverse=True)`
(`strategy_store.py` line 68): stable descending order on `weight`. -/
def weightGE (a b : WeightedStep) : Bool := decide (b.weight ≤ a.weight)

/-- The deduplication loop (`strategy_store.py` lines 71-79): walk the
weight-sorted entries, keep each step text once (first occurrence), and
stop as soon as 15 unique steps are collected. -/
def uniqueStepsAux : List WeightedStep → List String → List String
  | [], acc => acc
  | item :: rest, acc =>
    if item.step ∈ acc then uniqueStepsAux rest acc
    else if 15 ≤ acc.length + 1 then acc ++ [item.step]
    else uniqueStepsAux rest (acc ++ [item.step])

/-- `unique_steps` (`strategy_store.py` lines 67-79): sort by weight
descending, then deduplicate with the 15-step cap. -/
def uniqueSteps (records : List ExecutionRecord) : List String :=
  uniqueStepsAux ((weightedSteps records).mergeSort weightGE) []

/-- `five_star_count` (`strategy_store.py` line 85). -/
def fiveStarCount (records : List ExecutionRecord) : Nat :=
  (highQuality records).countP (fun r => decide (r.rating = 5))

/-- `avg_confidence` (`strategy_store.py` lines 82-89): mean of the
confidence scores, multiplied by `1 + five_star_count * 0.1` and clamped
at `1.0` — but only when at least one contributing record is five-star. -/
def avgConfidence (records : List ExecutionRecord) : ℚ :=
  let cs := confidenceScores records
  if cs.length = 0 then 0.0
  else
    let avg := cs.sum / (cs.length : ℚ)
    if 0 < fiveStarCount records then
      min (avg * (1 + (fiveStarCount records : ℚ) * 0.1)) 1.0
    else avg

/-- One element of the `similar_records` list in the returned dictionary
(`strategy_store.py` lines 96-104). -/
structure SimilarInfo where
  question : String
  rating : Int
  timestamp : String
  task_type : String
  weighted_score : ℚ
deriving DecidableEq

/-- The dictionary returned by `StrategyStore.get_strategy_suggestions`. -/
structure StrategySuggestion where
  has_suggestions : Bool
  message : String
  suggested_steps : List String
  confidence : ℚ
  similar_records : List SimilarInfo
deriving DecidableEq

/-- `StrategyStore.get_strategy_suggestions` (`strategy_store.py`
lines 13-105), as a function of the list of similar records fetched from
`find_similar_executions(question, limit=5)`.  The two early returns
(lines 17-23 and 59-65) yield no suggestions and confidence `0.0`. -/
def get_strategy_suggestions (similar_records : List ExecutionRecord) :
    StrategySuggestion :=
  if similar_records.isEmpty then
    ⟨false, "未找到相似的历史执行记录", [], 0.0, []⟩
  else if (weightedSteps similar_records).isEmpty then
    ⟨false, "找到相似记录但执行质量不足", [], 0.0, []⟩
  else
    ⟨true,
      "基于" ++ toString (highQuality similar_records).length ++
        "条高质量记录生成执行建议（含" ++
        toString (fiveStarCount similar_records) ++ "条五星记录）",
      uniqueSteps similar_records,
      avgConfidence similar_records,
      (highQuality similar_records).map (fun r =>
        ⟨r.question, r.rating, r.timestamp, r.task_type, r.weighted_score⟩)⟩

/-- The dictionary returned by `MemoryManager.get_statistics`
(`memory_manager.py` lines 349-354). -/
structure Stats where
  total_records : Nat
  rating_distribution : List (Int × Nat)
  task_type_distribution : List (String × Nat)
  success_rate : ℚ
deriving DecidableEq

/-- First occurrence of each value, in encounter order (the grouping keys
of a SQL `GROUP BY`). -/
def distinctKeys {α : Type} [DecidableEq α] : List α → List α → List α
  | [], _ => []
  | x :: xs, seen =>
    if x ∈ seen then distinctKeys xs seen else x :: distinctKeys xs (x :: seen)

/-- `SELECT rating, COUNT(*) ... GROUP BY rating ORDER BY rating DESC`
(`memory_manager.py` lines 329-334): one `(rating, count)` pair per
rating value present, largest rating first. -/
def ratingDistribution (recs : List ExecutionRecord) : List (Int × Nat) :=
  ((distinctKeys (recs.map (fun r => r.rating)) []).mergeSort
      (fun a b => decide (b ≤ a))).map
    (fun v => (v, recs.countP (fun r => r.rating == v)))

/-- `SELECT task_type, COUNT(*) ... GROUP BY task_type`
(`memory_manager.py` lines 338-342). -/
def taskTypeDistribution (recs : List ExecutionRecord) : List (String × Nat) :=
  (distinctKeys (recs.map (fun r => r.task_type)) []).map
    (fun v => (v, recs.countP (fun r => r.task_type == v)))

/-- `MemoryManager.get_statistics` (`memory_manager.py` lines 315-360).
`AVG(CAST(success AS FLOAT))` over the empty table is SQL `NULL`, which
line 347 (`... or 0.0`) turns into `0.0`. -/
def get_statistics (st : Store) : Stats :=
  let recs := st.execution_records
  { total_records := recs.length
    rating_distribution := ratingDistribution recs
    task_type_distribution := taskTypeDistribution recs
    success_rate :=
      if recs.length = 0 then 0.0
      else (recs.countP (fun r => r.success) : ℚ) / (recs.length : ℚ) }

/-- The dictionary returned by `RatingSystem.process_rating`
(`rating_system.py` lines 98-104); the long feedback text is omitted,
`stored` and `success` carry the decision logic. -/
structure RatingOutcome where
  success : Bool
  stored : Bool
  rating : Int
deriving DecidableEq

/-- `RatingSystem.process_rating` (`rating_system.py` lines 27-104):
reject ratings outside `[1, 5]` before any side effect; otherwise derive
`success = rating >= 4` and store the record only when `rating >= 4`.
Returns the outcome and the updated database. -/
def process_rating (extract : String → List String → List String)
    (genId : String → String → String) (now : String) (st : Store)
    (rating : Int) (question : String) (execution_steps : List String)
    (result : String) (task_type : String) (execution_time : ℚ) :
    RatingOutcome × Store :=
  if rating < 1 ∨ 5 < rating then
    (⟨false, false, rating⟩, st)
  else
    let success := decide (4 ≤ rating)
    if 4 ≤ rating then
      let out := store_execution extract genId now st question execution_steps
        result rating task_type success execution_time
      (⟨true, true, rating⟩, out.2)
    else
      (⟨true, false, rating⟩, st)

/-! ## Helper lemmas about the record upsert -/

lemma mem_upsertRecord {recs : List ExecutionRecord} {r x : ExecutionRecord}
    (h : x ∈ upsertRecord recs r) : x ∈ recs ∨ x = r := by
  unfold upsertRecord at h
  split at h
  · obtain ⟨y, hy, hyx⟩ := List.mem_map.1 h
    by_cases hid : y.id = r.id
    · right
      rw [if_pos hid] at hyx
      exact hyx.symm
    · left
      rw [if_neg hid] at hyx
      exact hyx ▸ hy
  · rcases List.mem_append.1 h with h' | h'
    · exact Or.inl h'
    · exact Or.inr (List.mem_singleton.1 h')

lemma self_mem_upsertRecord (recs : List ExecutionRecord) (r : ExecutionRecord) :
    r ∈ upsertRecord recs r := by
  unfold upsertRecord
  split
  · rename_i hany
    obtain ⟨y, hy, hyid⟩ := List.any_eq_true.1 hany
    refine List.mem_map.2 ⟨y, hy, ?_⟩
    rw [if_pos (beq_iff_eq.1 hyid)]
  · exact List.mem_append.2 (Or.inr (List.mem_singleton.2 rfl))

lemma upsertRecord_nodup {recs : List ExecutionRecord} (r : ExecutionRecord)
    (h : (recs.map ExecutionRecord.id).Nodup) :
    ((upsertRecord recs r).map ExecutionRecord.id).Nodup := by
  unfold upsertRecord
  split
  · rw [List.map_map]
    have : recs.map (ExecutionRecord.id ∘ fun x => if x.id = r.id then r else x) =
        recs.map ExecutionRecord.id := by
      apply List.map_congr_left
      intro a _
      by_cases hid : a.id = r.id
      · simp [Function.comp, hid]
      · simp [Function.comp, hid]
    rw [this]
    exact h
  · rename_i hany
    rw [List.map_append, List.nodup_append]
    refine ⟨h, List.nodup_singleton _, ?_⟩
    intro a ha hb
    rw [List.map_singleton, List.mem_singleton] at hb
    subst hb
    obtain ⟨y, hy, hyid⟩ := List.mem_map.1 ha
    rw [List.any_eq_true] at hany
    exact hany ⟨y, hy, beq_iff_eq.2 hyid⟩

lemma filter_upsertRecord :
    ∀ (recs : List ExecutionRecord) (r : ExecutionRecord),
    (recs.map ExecutionRecord.id).Nodup →
    (upsertRecord recs r).filter (fun x => x.id == r.id) = [r]
  | [], r, _ => by simp [upsertRecord]
  | x :: xs, r, h => by
    have htail : (xs.map ExecutionRecord.id).Nodup := by
      rw [List.map_cons, List.nodup_cons] at h
      exact h.2
    have hxid : x.id ∉ xs.map ExecutionRecord.id := by
      rw [List.map_cons, List.nodup_cons] at h
      exact h.1
    by_cases hx : x.id = r.id
    · have hany : (x :: xs).any (fun y => y.id == r.id) = true :=
        List.any_eq_true.2 ⟨x, List.mem_cons_self x xs, beq_iff_eq.2 hx⟩
      unfold upsertRecord
      rw [if_pos hany, List.map_cons, if_pos hx, List.filter_cons_of_pos (by simp)]
      have hrest : (xs.map fun y => if y.id = r.id then r else y).filter
          (fun z => z.id == r.id) = [] := by
        apply List.filter_eq_nil_iff.2
        intro z hz
        obtain ⟨y, hy, hyz⟩ := List.mem_map.1 hz
        have hyne : y.id ≠ r.id := by
          intro he
          exact hxid (by rw [hx, ← he]; exact List.mem_map_of_mem ExecutionRecord.id hy)
        rw [if_neg hyne] at hyz
        subst hyz
        simp [hyne]
      rw [hrest]
    · by_cases hxs : xs.any (fun y => y.id == r.id)
      · have hany : (x :: xs).any (fun y => y.id == r.id) = true := by
          rw [List.any_cons, hxs, Bool.or_true]
        have hih := filter_upsertRecord xs r htail
        have hxs2 : upsertRecord xs r = xs.map fun y => if y.id = r.id then r else y := by
          unfold upsertRecord
          rw [if_pos hxs]
        unfold upsertRecord
        rw [if_pos hany, List.map_cons, if_neg hx,
          List.filter_cons_of_neg (by simp [hx]), ← hxs2, hih]
      · have hxs2f : xs.any (fun y => y.id == r.id) = false := by
          simpa using hxs
        have hany : (x :: xs).any (fun y => y.id == r.id) = false := by
          rw [List.any_cons, hxs2f, Bool.or_false]
          exact beq_eq_false_iff_ne.2 hx
        have hih := filter_upsertRecord xs r htail
        have hxs2 : upsertRecord xs r = xs ++ [r] := by
          unfold upsertRecord
          rw [if_neg (by rw [hxs2f]; exact Bool.false_ne_true)]
        unfold upsertRecord
        rw [if_neg (by rw [hany]; exact Bool.false_ne_true),
          List.cons_append, List.filter_cons_of_neg (by simp [hx]), ← hxs2, hih]

/-! ## Concrete fixtures used by witnesses -/

/-- A stand-in for the deterministic id generator (the source uses a
truncated MD5 digest of the same content string). -/
def genIdFix : String → String → String := fun q t => q ++ "_" ++ t

/-- A keyword extractor that always produces one keyword. -/
def extractFixOne : String → List String → List String := fun _ _ => ["kw"]

/-- A keyword extractor that always produces two keywords. -/
def extractFixTwo : String → List String → List String := fun _ _ => ["k2", "k3"]

/-- A keyword extractor that never produces keywords. -/
def extractFixNone : String → List String → List String := fun _ _ => []

/-- A store holding one already-admitted record. -/
def storeFix : Store :=
  ⟨[{ id := "r1_t1", question := "q1", execution_steps := ["open browser"],
      result := "ok", rating := 5, timestamp := "t1", task_type := "unknown",
      success := true, execution_time := 0, similarity_keywords := ["kw"],
      weighted_score := 0 }],
    [⟨"kw", "r1_t1", 1.0⟩]⟩

/-! ## C5: empty-query short-circuit -/

/-- **C5.** If keyword extraction yields no keywords for the question,
`find_similar_executions` returns the empty list, and the result does
not depend on the record store at all (the store is never queried). -/
theorem find_similar_empty_keywords
    (extract : String → List String → List String) (question : String)
    (limit : Nat) (st st2 : Store) (h : extract question [] = []) :
    find_similar_executions extract st question limit = [] ∧
    find_similar_executions extract st question limit =
      find_similar_executions extract st2 question limit := by
  constructor <;> simp [find_similar_executions, h]

/-- Witness for C5 at a concrete extractor, question and pair of stores. -/
theorem find_similar_empty_keywords_witness :
    find_similar_executions extractFixNone storeFix "AI trends" 3 = [] ∧
    find_similar_executions extractFixNone storeFix "AI trends" 3 =
      find_similar_executions extractFixNone emptyStore "AI trends" 3 :=
  find_similar_empty_keywords extractFixNone "AI trends" 3 storeFix emptyStore rfl

/-! ## C8: the low-rating path is effect-free -/

/-- **C8.** `store_execution` with `rating < 4` returns the "not stored"
message, leaves the store untouched, and never invokes the keyword
extractor (the outcome is the same for any two extractors). -/
theorem store_execution_low_rating_frame
    (extract extract2 : String → List String → List String)
    (genId : String → String → String) (now : String) (st : Store)
    (question : String) (steps : List String) (result : String)
    (rating : Int) (task_type : String) (success : Bool)
    (execution_time : ℚ) (h : rating < 4) :
    (store_execution extract genId now st question steps result rating
      task_type success execution_time).2 = st ∧
    (store_execution extract genId now st question steps result rating
      task_type success execution_time).1 = notStoredMessage ∧
    store_execution extract genId now st question steps result rating
        task_type success execution_time =
      store_execution extract2 genId now st question steps result rating
        task_type success execution_time := by
  refine ⟨?_, ?_, ?_⟩ <;> simp [store_execution, h]

/-- Witness for C8 at rating 3. -/
theorem store_execution_low_rating_frame_witness :
    (store_execution extractFixOne genIdFix "t2" storeFix "q" ["s"] "res" 3
      "unknown" true 0).2 = storeFix ∧
    (store_execution extractFixOne genIdFix "t2" storeFix "q" ["s"] "res" 3
      "unknown" true 0).1 = notStoredMessage ∧
    store_execution extractFixOne genIdFix "t2" storeFix "q" ["s"] "res" 3
        "unknown" true 0 =
      store_execution extractFixTwo genIdFix "t2" storeFix "q" ["s"] "res" 3
        "unknown" true 0 :=
  store_execution_low_rating_frame extractFixOne extractFixTwo genIdFix "t2"
    storeFix "q" ["s"] "res" 3 "unknown" true 0 (by norm_num)

/-! ## C9: statistics on the empty store -/

/-- **C9.** On a store with no records, `get_statistics` returns the
zeroed aggregates: total 0, empty rating histogram, empty task-type
histogram, success rate 0. -/
theorem get_statistics_empty (st : Store) (h : st.execution_records = []) :
    get_statistics st =
      { total_records := 0, rating_distribution := [],
        task_type_distribution := [], success_rate := 0 } := by
  simp [get_statistics, ratingDistribution, taskTypeDistribution, distinctKeys,
    h, show (0.0 : ℚ) = 0 by norm_num]

/-- Witness for C9 at the freshly-initialised store. -/
theorem get_statistics_empty_witness :
    get_statistics emptyStore =
      { total_records := 0, rating_distribution := [],
        task_type_distribution := [], success_rate := 0 } :=
  get_statistics_empty emptyStore rfl

/-! ## C10: records stored via `process_rating` always have `success = true` -/

/-- **C10.** Every record present after `process_rating` either was
already in the store or carries `success = true`: `process_rating`
derives `success = rating >= 4` and only stores when `rating >= 4`, so
this public path can never persist a record with `success = false`. -/
theorem process_rating_success_invariant
    (extract : String → List String → List String)
    (genId : String → String → String) (now : String) (st : Store)
    (rating : Int) (question : String) (steps : List String)
    (result : String) (task_type : String) (execution_time : ℚ) :
    ∀ r ∈ (process_rating extract genId now st rating question steps result
      task_type execution_time).2.execution_records,
      r ∈ st.execution_records ∨ r.success = true := by
  intro r hr
  unfold process_rating at hr
  split at hr
  · exact Or.inl hr
  · rename_i hvalid
    split at hr
    · rename_i h4
      simp only [store_execution, not_lt.2 h4, if_false] at hr
      rcases mem_upsertRecord hr with hold | hnew
      · exact Or.inl hold
      · right
        rw [hnew]
        exact decide_eq_true h4
    · exact Or.inl hr

/-- The record inserted by the C10 witness scenario. -/
def c10Record : ExecutionRecord :=
  { id := "q_t9", question := "q", execution_steps := ["s"], result := "res",
    rating := 5, timestamp := "t9", task_type := "unknown", success := true,
    execution_time := 0, similarity_keywords := ["kw"], weighted_score := 0 }

/-- Witness for C10: processing a 5-star rating on the empty store. -/
theorem process_rating_success_invariant_witness :
    c10Record ∈ (process_rating extractFixOne genIdFix "t9" emptyStore 5 "q"
        ["s"] "res" "unknown" 0).2.execution_records ∧
    (c10Record ∈ emptyStore.execution_records ∨ c10Record.success = true) := by
  have hmem : c10Record ∈ (process_rating extractFixOne genIdFix "t9"
      emptyStore 5 "q" ["s"] "res" "unknown" 0).2.execution_records := by
    simp [process_rating, store_execution, upsertRecord, emptyStore,
      extractFixOne, genIdFix, c10Record]
  exact ⟨hmem, process_rating_success_invariant extractFixOne genIdFix "t9"
    emptyStore 5 "q" ["s"] "res" "unknown" 0 c10Record hmem⟩

/-! ## Helper lemmas about the ranker -/

lemma mem_scoredRecords {st : Store} {qkws : List String} {x : ExecutionRecord}
    (h : x ∈ scoredRecords st qkws) :
    ∃ r0, r0 ∈ st.execution_records ∧
      x = { r0 with weighted_score := weightedScore st qkws r0 } := by
  obtain ⟨r0, hr0, hx⟩ := List.mem_map.1 h
  exact ⟨r0, (List.mem_filter.1 hr0).1, hx.symm⟩

lemma mem_find_similar_core {st : Store} {qkws : List String} {limit : Nat}
    {x : ExecutionRecord} (h : x ∈ find_similar_core st qkws limit) :
    x ∈ scoredRecords st qkws :=
  List.mem_mergeSort.1 (List.mem_of_mem_take h)

/-! ## C3: the admission gate -/

/-- **C3.** The admission decision is exactly `rating >= 4`; storing with
any rating preserves the invariant that every stored record has rating
at least 4 (a sub-4 record is never inserted); records retrieved by the
ranking query all satisfy it as well; and an admitted rating does insert
a record under the content-derived id. -/
theorem admission_gate (r rating : Int)
    (extract : String → List String → List String)
    (genId : String → String → String) (now : String) (st : Store)
    (question : String) (steps : List String) (result : String)
    (task_type : String) (success : Bool) (execution_time : ℚ)
    (qkws : List String) (limit : Nat)
    (hinv : ∀ rec ∈ st.execution_records, 4 ≤ rec.rating) :
    should_store_execution r = decide (4 ≤ r) ∧
    (∀ rec ∈ (store_execution extract genId now st question steps result
      rating task_type success execution_time).2.execution_records,
      4 ≤ rec.rating) ∧
    (∀ rec ∈ find_similar_core st qkws limit, 4 ≤ rec.rating) ∧
    (4 ≤ rating → ∃ rec ∈ (store_execution extract genId now st question
        steps result rating task_type success execution_time).2.execution_records,
      rec.id = genId question now ∧ rec.rating = rating) := by
  refine ⟨rfl, ?_, ?_, ?_⟩
  · intro rec hrec
    by_cases h4 : rating < 4
    · rw [store_execution, if_pos h4] at hrec
      exact hinv rec hrec
    · simp only [store_execution, h4, if_false] at hrec
      rcases mem_upsertRecord hrec with hold | hnew
      · exact hinv rec hold
      · rw [hnew]
        exact not_lt.1 h4
  · intro rec hrec
    obtain ⟨r0, hr0, hx⟩ := mem_scoredRecords (mem_find_similar_core hrec)
    rw [hx]
    exact hinv r0 hr0
  · intro h4
    simp only [store_execution, not_lt.2 h4, if_false]
    exact ⟨_, self_mem_upsertRecord _ _, rfl, rfl⟩

/-- Witness for C3: rating 5 admitted into the store of fixtures. -/
theorem admission_gate_witness :
    should_store_execution 3 = decide ((4 : Int) ≤ 3) ∧
    (∀ rec ∈ (store_execution extractFixOne genIdFix "t3" storeFix "q2"
      ["s2"] "res2" 5 "unknown" true 0).2.execution_records, 4 ≤ rec.rating) ∧
    (∀ rec ∈ find_similar_core storeFix ["kw"] 3, 4 ≤ rec.rating) ∧
    ((4 : Int) ≤ 5 → ∃ rec ∈ (store_execution extractFixOne genIdFix "t3"
        storeFix "q2" ["s2"] "res2" 5 "unknown" true 0).2.execution_records,
      rec.id = genIdFix "q2" "t3" ∧ rec.rating = 5) :=
  admission_gate 3 5 extractFixOne genIdFix "t3" storeFix "q2" ["s2"] "res2"
    "unknown" true 0 ["kw"] 3
    (by intro rec hrec; simp [storeFix] at hrec; rw [hrec]; norm_num)

/-! ## C1 and C2: the confidence computation -/

/-- A retrieved 4-star successful record with no attached ranker score. -/
def fourStarRecord : ExecutionRecord :=
  { id := "a1", question := "q", execution_steps := ["step a"], result := "ok",
    rating := 4, timestamp := "2024-01-01T00:00:00", task_type := "unknown",
    success := true, execution_time := 0, similarity_keywords := ["kw"],
    weighted_score := 0 }

/-- A retrieved 5-star successful record with no attached ranker score. -/
def fiveStarRecord : ExecutionRecord :=
  { id := "a2", question := "q", execution_steps := ["step b"], result := "ok",
    rating := 5, timestamp := "2024-01-02T00:00:00", task_type := "unknown",
    success := true, execution_time := 0, similarity_keywords := ["kw"],
    weighted_score := 0 }

/-- **C1.** Evaluation at the failing input: a single contributing
4-star record makes `get_strategy_suggestions` return confidence
`(4/5 * 0.8 + 0.2) * 1.5 = 1.26`, which is outside `[0, 1]` — the
`min(..., 1.0)` clamp is applied only on the five-star branch. -/
theorem confidence_exceeds_one :
    (get_strategy_suggestions [fourStarRecord]).confidence = 63 / 50 ∧
    1 < (get_strategy_suggestions [fourStarRecord]).confidence := by
  have h : (get_strategy_suggestions [fourStarRecord]).confidence = 63 / 50 := by
    simp [get_strategy_suggestions, weightedSteps, highQuality, avgConfidence,
      confidenceScores, fiveStarCount, recordWeight, fourStarRecord]
    norm_num
  exact ⟨h, by rw [h]; norm_num⟩

/-- **C2.** Evaluation at the failing input: adding a 5-star record to
an all-4-star contributing set makes the confidence drop from `1.26` to
`min(((1.26 + 3)/2) * 1.1, 1.0) = 1.0`, strictly lower — the claimed
strict monotonicity in rating fails. -/
theorem confidence_not_monotonic_in_rating :
    (get_strategy_suggestions [fourStarRecord, fiveStarRecord]).confidence = 1 ∧
    (get_strategy_suggestions [fourStarRecord, fiveStarRecord]).confidence <
      (get_strategy_suggestions [fourStarRecord]).confidence := by
  have h1 : (get_strategy_suggestions [fourStarRecord]).confidence = 63 / 50 := by
    simp [get_strategy_suggestions, weightedSteps, highQuality, avgConfidence,
      confidenceScores, fiveStarCount, recordWeight, fourStarRecord]
    norm_num
  have h2 : (get_strategy_suggestions
      [fourStarRecord, fiveStarRecord]).confidence = 1 := by
    simp [get_strategy_suggestions, weightedSteps, highQuality, avgConfidence,
      confidenceScores, fiveStarCount, recordWeight, fourStarRecord,
      fiveStarRecord]
    norm_num
  exact ⟨h2, by rw [h1, h2]; norm_num⟩

/-! ## C6: idempotent re-storage -/

lemma store_execution_admitted
    (extract : String → List String → List String)
    (genId : String → String → String) (now : String) (st : Store)
    (question : String) (steps : List String) (result : String)
    (rating : Int) (task_type : String) (success : Bool)
    (execution_time : ℚ) (h : 4 ≤ rating) :
    (store_execution extract genId now st question steps result rating
      task_type success execution_time).2 =
    { execution_records := upsertRecord st.execution_records
        { id := genId question now, question := question,
          execution_steps := steps, result := result, rating := rating,
          timestamp := now, task_type := task_type, success := success,
          execution_time := execution_time,
          similarity_keywords := extract question steps, weighted_score := 0 }
      similarity_index := st.similarity_index.filter
          (fun e => !(e.record_id == genId question now)) ++
        (extract question steps).map
          (fun kw =>
            ({ keyword := kw, record_id := genId question now,
               weight := 1.0 } : SimIndexEntry)) } := by
  simp only [store_execution, not_lt.2 h, if_false]

lemma filter_replaced_index (idx : List SimIndexEntry) (rid : String)
    (kws : List String) :
    ((idx.filter (fun e => !(e.record_id == rid))) ++
      kws.map (fun kw =>
        ({ keyword := kw, record_id := rid, weight := 1.0 } : SimIndexEntry))).filter
        (fun e => e.record_id == rid) =
      kws.map (fun kw =>
        ({ keyword := kw, record_id := rid, weight := 1.0 } : SimIndexEntry)) := by
  rw [List.filter_append]
  have h1 : (idx.filter (fun e => !(e.record_id == rid))).filter
      (fun e => e.record_id == rid) = [] := by
    rw [List.filter_filter]
    apply List.filter_eq_nil_iff.2
    intro e _
    simp [Bool.and_comm]
  have h2 : (kws.map (fun kw => (⟨kw, rid, 1.0⟩ : SimIndexEntry))).filter
      (fun e => e.record_id == rid) =
      kws.map (fun kw => (⟨kw, rid, 1.0⟩ : SimIndexEntry)) := by
    apply List.filter_eq_self.2
    intro e he
    obtain ⟨kw, _, hkw⟩ := List.mem_map.1 he
    rw [← hkw]
    exact beq_self_eq_true rid
  rw [h1, h2, List.nil_append]

/-- **C6.** Storing the same `(question, timestamp)` twice (the id
generator is a function of exactly those two inputs) leaves exactly one
record under the content-derived id, carrying the second call's field
values, and the keyword-index rows under that id are exactly the second
call's keywords — fully replaced, not duplicated.  Stored ids also stay
duplicate-free. -/
theorem idempotent_restorage
    (extract1 extract2 : String → List String → List String)
    (genId : String → String → String) (now question : String)
    (steps1 : List String) (result1 : String) (rating1 : Int)
    (tt1 : String) (succ1 : Bool) (et1 : ℚ)
    (steps2 : List String) (result2 : String) (rating2 : Int)
    (tt2 : String) (succ2 : Bool) (et2 : ℚ)
    (st st1 st2 : Store) (rid : String)
    (hnd : (st.execution_records.map ExecutionRecord.id).Nodup)
    (h1 : 4 ≤ rating1) (h2 : 4 ≤ rating2)
    (hst1 : st1 = (store_execution extract1 genId now st question steps1
      result1 rating1 tt1 succ1 et1).2)
    (hst2 : st2 = (store_execution extract2 genId now st1 question steps2
      result2 rating2 tt2 succ2 et2).2)
    (hrid : rid = genId question now) :
    st2.execution_records.filter (fun x => x.id == rid) =
      [{ id := rid, question := question, execution_steps := steps2,
         result := result2, rating := rating2, timestamp := now,
         task_type := tt2, success := succ2, execution_time := et2,
         similarity_keywords := extract2 question steps2,
         weighted_score := 0 }] ∧
    st2.similarity_index.filter (fun e => e.record_id == rid) =
      (extract2 question steps2).map (fun kw => ⟨kw, rid, 1.0⟩) ∧
    (st2.execution_records.map ExecutionRecord.id).Nodup := by
  subst hrid hst1 hst2
  rw [store_execution_admitted extract1 genId now st question steps1 result1
    rating1 tt1 succ1 et1 h1,
    store_execution_admitted extract2 genId now _ question steps2 result2
    rating2 tt2 succ2 et2 h2]
  have hnd1 : ((upsertRecord st.execution_records
      { id := genId question now, question := question,
        execution_steps := steps1, result := result1, rating := rating1,
        timestamp := now, task_type := tt1, success := succ1,
        execution_time := et1,
        similarity_keywords := extract1 question steps1,
        weighted_score := 0 }).map ExecutionRecord.id).Nodup :=
    upsertRecord_nodup _ hnd
  dsimp only
  exact ⟨filter_upsertRecord _
      { id := genId question now, question := question,
        execution_steps := steps2, result := result2, rating := rating2,
        timestamp := now, task_type := tt2, success := succ2,
        execution_time := et2,
        similarity_keywords := extract2 question steps2,
        weighted_score := 0 } hnd1,
    filter_replaced_index _ _ _, upsertRecord_nodup _ hnd1⟩

/-- Witness for C6: store twice for `("q1", "t1")` on the empty store,
first with rating 4, then with rating 5 and different fields. -/
theorem idempotent_restorage_witness :
    ((store_execution extractFixTwo genIdFix "t1"
        (store_execution extractFixOne genIdFix "t1" emptyStore "q1" ["a"]
          "r1" 4 "t" true 0).2
        "q1" ["b"] "r2" 5 "u" true 0).2).execution_records.filter
      (fun x => x.id == genIdFix "q1" "t1") =
      [{ id := genIdFix "q1" "t1", question := "q1",
         execution_steps := ["b"], result := "r2", rating := 5,
         timestamp := "t1", task_type := "u", success := true,
         execution_time := 0,
         similarity_keywords := extractFixTwo "q1" ["b"],
         weighted_score := 0 }] ∧
    ((store_execution extractFixTwo genIdFix "t1"
        (store_execution extractFixOne genIdFix "t1" emptyStore "q1" ["a"]
          "r1" 4 "t" true 0).2
        "q1" ["b"] "r2" 5 "u" true 0).2).similarity_index.filter
      (fun e => e.record_id == genIdFix "q1" "t1") =
      (extractFixTwo "q1" ["b"]).map
        (fun kw => ⟨kw, genIdFix "q1" "t1", 1.0⟩) ∧
    (((store_execution extractFixTwo genIdFix "t1"
        (store_execution extractFixOne genIdFix "t1" emptyStore "q1" ["a"]
          "r1" 4 "t" true 0).2
        "q1" ["b"] "r2" 5 "u" true 0).2).execution_records.map
      ExecutionRecord.id).Nodup :=
  idempotent_restorage extractFixOne extractFixTwo genIdFix "t1" "q1"
    ["a"] "r1" 4 "t" true 0 ["b"] "r2" 5 "u" true 0 emptyStore _ _ _
    (by simp [emptyStore]) (by norm_num) (by norm_num) rfl rfl rfl

/-! ## C4: ranking order -/

lemma rankLE_iff (a b : ExecutionRecord) :
    rankLE a b = true ↔
      (b.weighted_score < a.weighted_score ∨
        (a.weighted_score = b.weighted_score ∧
          (b.rating < a.rating ∨
            (a.rating = b.rating ∧ b.timestamp ≤ a.timestamp)))) := by
  simp [rankLE]

lemma rankLE_trans (a b c : ExecutionRecord) (hab : rankLE a b = true)
    (hbc : rankLE b c = true) : rankLE a c = true := by
  rw [rankLE_iff] at hab hbc ⊢
  rcases hab with h1 | ⟨e1, h1⟩ <;> rcases hbc with h2 | ⟨e2, h2⟩
  · exact Or.inl (lt_trans h2 h1)
  · exact Or.inl (e2 ▸ h1)
  · exact Or.inl (by rw [e1]; exact h2)
  · refine Or.inr ⟨e1.trans e2, ?_⟩
    rcases h1 with g1 | ⟨f1, g1⟩ <;> rcases h2 with g2 | ⟨f2, g2⟩
    · exact Or.inl (lt_trans g2 g1)
    · exact Or.inl (f2 ▸ g1)
    · exact Or.inl (by rw [f1]; exact g2)
    · exact Or.inr ⟨f1.trans f2, le_trans g2 g1⟩

lemma rankLE_total (a b : ExecutionRecord) :
    (rankLE a b || rankLE b a) = true := by
  simp only [Bool.or_eq_true, rankLE_iff]
  rcases lt_trichotomy a.weighted_score b.weighted_score with h | h | h
  · exact Or.inr (Or.inl h)
  · rcases lt_trichotomy a.rating b.rating with g | g | g
    · exact Or.inr (Or.inr ⟨h.symm, Or.inl g⟩)
    · rcases le_total b.timestamp a.timestamp with t | t
      · exact Or.inl (Or.inr ⟨h, Or.inr ⟨g, t⟩⟩)
      · exact Or.inr (Or.inr ⟨h.symm, Or.inr ⟨g.symm, t⟩⟩)
    · exact Or.inl (Or.inr ⟨h, Or.inl g⟩)
  · exact Or.inl (Or.inl h)

lemma scored_weighted_score (st : Store) (qkws : List String)
    {x : ExecutionRecord} (h : x ∈ scoredRecords st qkws) :
    x.weighted_score = weightedScore st qkws x := by
  obtain ⟨r0, _, hx⟩ := mem_scoredRecords h
  subst hx
  rfl

/-- **C4.** The ranking query returns at most `limit` records, ordered
by `weighted_score` descending with ties broken by rating descending and
then timestamp descending; in particular a rating-4 record never
precedes a rating-5 record with the same query-keyword match count. -/
theorem ranking_order (st : Store) (qkws : List String) (limit : Nat) :
    (find_similar_core st qkws limit).length ≤ limit ∧
    List.Pairwise (fun a b => rankLE a b = true)
      (find_similar_core st qkws limit) ∧
    List.Pairwise (fun a b => ¬(matchCount st qkws a = matchCount st qkws b ∧
      a.rating = 4 ∧ b.rating = 5)) (find_similar_core st qkws limit) := by
  have hsorted : List.Pairwise (fun a b => rankLE a b = true)
      ((scoredRecords st qkws).mergeSort rankLE) :=
    List.sorted_mergeSort rankLE_trans rankLE_total _
  have hsub : List.Sublist (find_similar_core st qkws limit)
      ((scoredRecords st qkws).mergeSort rankLE) := List.take_sublist _ _
  refine ⟨List.length_take_le _ _, hsorted.sublist hsub, ?_⟩
  apply List.Pairwise.imp_of_mem ?_ (hsorted.sublist hsub)
  intro a b ha hb hab
  rintro ⟨hmc, h4, h5⟩
  have hwa : a.weighted_score = weightedScore st qkws a :=
    scored_weighted_score st qkws (mem_find_similar_core ha)
  have hwb : b.weighted_score = weightedScore st qkws b :=
    scored_weighted_score st qkws (mem_find_similar_core hb)
  have hlt : a.weighted_score < b.weighted_score := by
    rw [hwa, hwb]
    unfold weightedScore
    rw [h4, h5, hmc]
    cases ha2 : a.success <;> cases hb2 : b.success <;> norm_num <;> linarith
  rw [rankLE_iff] at hab
  rcases hab with h | ⟨he, _⟩
  · exact absurd hlt (lt_asymm h)
  · rw [he] at hlt
    exact lt_irrefl _ hlt

/-- Witness instantiating C4 on a concrete store, query and limit. -/
theorem ranking_order_witness :
    (find_similar_core storeFix ["kw"] 3).length ≤ 3 ∧
    List.Pairwise (fun a b => rankLE a b = true)
      (find_similar_core storeFix ["kw"] 3) ∧
    List.Pairwise
      (fun a b => ¬(matchCount storeFix ["kw"] a = matchCount storeFix ["kw"] b ∧
        a.rating = 4 ∧ b.rating = 5)) (find_similar_core storeFix ["kw"] 3) :=
  ranking_order storeFix ["kw"] 3

/-! ## C7: deduplication with the 15-step cap -/

/-- `s` "dominates" `t` relative to the weighted-step pool: every
occurrence of step `t` is matched by an occurrence of step `s` of at
least that weight.  This is what "keeping the highest-weight occurrence
first" means observably on the deduplicated output. -/
def stepDominates (ws0 : List WeightedStep) (s t : String) : Prop :=
  ∀ e ∈ ws0, e.step = t → ∃ e2 ∈ ws0, e2.step = s ∧ e.weight ≤ e2.weight

lemma uniqueStepsAux_nodup :
    ∀ (ws : List WeightedStep) (acc : List String),
    acc.Nodup → (uniqueStepsAux ws acc).Nodup := by
  intro ws
  induction ws with
  | nil => intro acc h; simpa [uniqueStepsAux] using h
  | cons item rest ih =>
    intro acc h
    simp only [uniqueStepsAux]
    by_cases hin : item.step ∈ acc
    · rw [if_pos hin]
      exact ih acc h
    · rw [if_neg hin]
      have hconc : (acc ++ [item.step]).Nodup := by
        rw [List.nodup_append]
        exact ⟨h, List.nodup_singleton _,
          fun a ha hb => hin (List.mem_singleton.1 hb ▸ ha)⟩
      by_cases hlen : 15 ≤ acc.length + 1
      · rw [if_pos hlen]
        exact hconc
      · rw [if_neg hlen]
        exact ih _ hconc

lemma uniqueStepsAux_length :
    ∀ (ws : List WeightedStep) (acc : List String),
    acc.length < 15 → (uniqueStepsAux ws acc).length ≤ 15 := by
  intro ws
  induction ws with
  | nil => intro acc h; simpa [uniqueStepsAux] using le_of_lt h
  | cons item rest ih =>
    intro acc h
    simp only [uniqueStepsAux]
    by_cases hin : item.step ∈ acc
    · rw [if_pos hin]
      exact ih acc h
    · rw [if_neg hin]
      by_cases hlen : 15 ≤ acc.length + 1
      · rw [if_pos hlen]
        simp only [List.length_append, List.length_singleton]
        omega
      · rw [if_neg hlen]
        apply ih
        simp only [List.length_append, List.length_singleton]
        omega

lemma uniqueStepsAux_forall (P : String → Prop) :
    ∀ (ws : List WeightedStep) (acc : List String),
    (∀ s ∈ acc, P s) → (∀ e ∈ ws, P e.step) →
    ∀ s ∈ uniqueStepsAux ws acc, P s := by
  intro ws
  induction ws with
  | nil =>
    intro acc ha _ s hs
    exact ha s (by simpa [uniqueStepsAux] using hs)
  | cons item rest ih =>
    intro acc ha he s hs
    simp only [uniqueStepsAux] at hs
    by_cases hin : item.step ∈ acc
    · rw [if_pos hin] at hs
      exact ih acc ha (fun e h => he e (List.mem_cons_of_mem _ h)) s hs
    · rw [if_neg hin] at hs
      have ha2 : ∀ t ∈ acc ++ [item.step], P t := by
        intro t ht
        rcases List.mem_append.1 ht with h1 | h1
        · exact ha t h1
        · rw [List.mem_singleton.1 h1]
          exact he item (List.mem_cons_self _ _)
      by_cases hlen : 15 ≤ acc.length + 1
      · rw [if_pos hlen] at hs
        exact ha2 s hs
      · rw [if_neg hlen] at hs
        exact ih _ ha2 (fun e h => he e (List.mem_cons_of_mem _ h)) s hs

lemma uniqueStepsAux_pairwise (L : List WeightedStep) :
    ∀ (ws : List WeightedStep) (acc : List String),
    List.Pairwise (fun a b => b.weight ≤ a.weight) ws →
    (∀ e ∈ ws, e ∈ L) →
    (∀ s ∈ acc, ∃ e2 ∈ L, e2.step = s ∧ ∀ e ∈ ws, e.weight ≤ e2.weight) →
    (∀ e ∈ L, e.step ∉ acc → e ∈ ws) →
    List.Pairwise (stepDominates L) acc →
    List.Pairwise (stepDominates L) (uniqueStepsAux ws acc) := by
  intro ws
  induction ws with
  | nil =>
    intro acc _ _ _ _ hp
    simpa [uniqueStepsAux] using hp
  | cons item rest ih =>
    intro acc hsort hmem hdom hcover hp
    simp only [uniqueStepsAux]
    by_cases hin : item.step ∈ acc
    · rw [if_pos hin]
      apply ih
      · exact hsort.of_cons
      · exact fun e he => hmem e (List.mem_cons_of_mem _ he)
      · intro s hs
        obtain ⟨e2, he2, hst, hdw⟩ := hdom s hs
        exact ⟨e2, he2, hst, fun e he => hdw e (List.mem_cons_of_mem _ he)⟩
      · intro e heL hna
        rcases List.mem_cons.1 (hcover e heL hna) with h1 | h1
        · exact absurd (by rw [h1]; exact hin) hna
        · exact h1
      · exact hp
    · rw [if_neg hin]
      have hQnew : ∀ s ∈ acc, stepDominates L s item.step := by
        intro s hs e heL hstep
        have hews : e ∈ item :: rest := hcover e heL (by rw [hstep]; exact hin)
        obtain ⟨e2, he2L, he2s, hdw⟩ := hdom s hs
        exact ⟨e2, he2L, he2s, hdw e hews⟩
      have hp2 : List.Pairwise (stepDominates L) (acc ++ [item.step]) := by
        rw [List.pairwise_append]
        refine ⟨hp, List.pairwise_singleton _ _, ?_⟩
        intro s hs t ht
        rw [List.mem_singleton] at ht
        subst ht
        exact hQnew s hs
      by_cases hlen : 15 ≤ acc.length + 1
      · rw [if_pos hlen]
        exact hp2
      · rw [if_neg hlen]
        apply ih
        · exact hsort.of_cons
        · exact fun e he => hmem e (List.mem_cons_of_mem _ he)
        · intro s hs
          rcases List.mem_append.1 hs with h1 | h1
          · obtain ⟨e2, he2, hst, hdw⟩ := hdom s h1
            exact ⟨e2, he2, hst, fun e he => hdw e (List.mem_cons_of_mem _ he)⟩
          · rw [List.mem_singleton] at h1
            subst h1
            refine ⟨item, hmem item (List.mem_cons_self _ _), rfl, ?_⟩
            intro e he
            exact (List.pairwise_cons.1 hsort).1 e he
        · intro e heL hna
          have hna1 : e.step ∉ acc := fun hc => hna (List.mem_append.2 (Or.inl hc))
          rcases List.mem_cons.1 (hcover e heL hna1) with h1 | h1
          · exfalso
            apply hna
            rw [h1]
            exact List.mem_append.2 (Or.inr (List.mem_singleton.2 rfl))
          · exact h1
        · exact hp2

lemma uniqueSteps_pairwise (records : List ExecutionRecord) :
    List.Pairwise (stepDominates (weightedSteps records))
      (uniqueSteps records) := by
  have htrans : ∀ (a b c : WeightedStep), weightGE a b = true →
      weightGE b c = true → weightGE a c = true := by
    intro a b c h1 h2
    simp only [weightGE, decide_eq_true_eq] at h1 h2 ⊢
    exact le_trans h2 h1
  have htotal : ∀ (a b : WeightedStep), (weightGE a b || weightGE b a) = true := by
    intro a b
    simp only [Bool.or_eq_true, weightGE, decide_eq_true_eq]
    exact le_total b.weight a.weight
  have hsorted : List.Pairwise (fun a b => b.weight ≤ a.weight)
      ((weightedSteps records).mergeSort weightGE) :=
    (List.sorted_mergeSort htrans htotal _).imp
      (fun h => by simpa [weightGE] using h)
  have h := uniqueStepsAux_pairwise ((weightedSteps records).mergeSort weightGE)
    ((weightedSteps records).mergeSort weightGE) [] hsorted (fun e he => he)
    (fun s hs => absurd hs (List.not_mem_nil s)) (fun e he _ => he)
    List.Pairwise.nil
  refine h.imp ?_
  intro a b hd e he hstep
  obtain ⟨e2, he2, hs2, hw2⟩ := hd e (List.mem_mergeSort.2 he) hstep
  exact ⟨e2, List.mem_mergeSort.1 he2, hs2, hw2⟩

/-- **C7.** The suggested step list contains no duplicate step text, has
at most 15 entries (so 30 distinct steps still yield at most 15), every
entry comes from some weighted step, and the list is ordered by
domination: an earlier step's occurrences outweigh every occurrence of a
later step — i.e. each kept step stands for its highest-weight
occurrence. -/
theorem dedup_cap (records : List ExecutionRecord) :
    (get_strategy_suggestions records).suggested_steps.Nodup ∧
    (get_strategy_suggestions records).suggested_steps.length ≤ 15 ∧
    (∀ s ∈ (get_strategy_suggestions records).suggested_steps,
      ∃ e ∈ weightedSteps records, e.step = s) ∧
    List.Pairwise (stepDominates (weightedSteps records))
      (get_strategy_suggestions records).suggested_steps := by
  unfold get_strategy_suggestions
  split
  · simp
  · split
    · simp
    · dsimp only
      refine ⟨uniqueStepsAux_nodup _ [] List.nodup_nil,
        uniqueStepsAux_length _ [] (by norm_num), ?_,
        uniqueSteps_pairwise records⟩
      intro s hs
      exact uniqueStepsAux_forall
        (fun t => ∃ e ∈ weightedSteps records, e.step = t) _ []
        (fun t ht => absurd ht (List.not_mem_nil t))
        (fun e he => ⟨e, List.mem_mergeSort.1 he, rfl⟩) s hs

/-- Witness instantiating C7 on a concrete contributing set. -/
theorem dedup_cap_witness :
    (get_strategy_suggestions [fourStarRecord, fiveStarRecord]).suggested_steps.Nodup ∧
    (get_strategy_suggestions
      [fourStarRecord, fiveStarRecord]).suggested_steps.length ≤ 15 ∧
    (∀ s ∈ (get_strategy_suggestions
        [fourStarRecord, fiveStarRecord]).suggested_steps,
      ∃ e ∈ weightedSteps [fourStarRecord, fiveStarRecord], e.step = s) ∧
    List.Pairwise (stepDominates (weightedSteps [fourStarRecord, fiveStarRecord]))
      (get_strategy_suggestions [fourStarRecord, fiveStarRecord]).suggested_steps :=
  dedup_cap [fourStarRecord, fiveStarRecord]
